import Mathlib

/-!
Verification of the murmur recording/transcription pipeline.

Shallow embedding of the core components of the murmur source:
* `src/hotkey.py`   — `HotkeyManager`: toggle state machine (Idle/Recording/Processing);
* `src/audio.py`    — `AudioRecorder`: start/stop/callback over an accumulated block list;
* `src/media_control.py` — `MediaController`: best-effort media pause/play over a
  sync-over-async bridge;
* `src/main.py`     — `MurmurApp`: the per-cycle orchestrator;
* `src/transcription.py` — `Transcriber`: audio normalization and text post-processing.

Python mutable objects become explicit state records, methods become state-passing
functions, machine floats used for sample buffers and durations become `ℚ`, and
exception control flow becomes explicit success flags / `Option` results.
-/

/-! ## Hotkey state machine (`src/hotkey.py`, `HotkeyManager`) -/

/-- The three states of `HotkeyState` in `src/hotkey.py`. -/
inductive HKState
  | idle
  | recording
  | processing
deriving DecidableEq, Repr

/-- The events that mutate `HotkeyManager._state`: a hotkey press
(`_on_hotkey_pressed`), and the orchestrator's explicit `set_idle` /
`set_processing` calls. -/
inductive HKEvent
  | trigger
  | setIdle
  | setProcessing
deriving DecidableEq, Repr

/-- The callback `_on_hotkey_pressed` spawns on a transition (`_on_start` on
Idle→Recording, `_on_stop` on Recording→Processing). -/
inductive HKCallback
  | onStart
  | onStop
deriving DecidableEq, Repr

/-- One step of the hotkey state machine: the new state together with the
callback spawned (if any).  `_on_hotkey_pressed` transitions Idle→Recording
(spawning `_on_start`) and Recording→Processing (spawning `_on_stop`) and does
nothing in Processing; `set_idle` / `set_processing` overwrite the state
unconditionally and spawn nothing. -/
def hkStep : HKState → HKEvent → HKState × Option HKCallback
  | .idle,       .trigger       => (.recording, some .onStart)
  | .recording,  .trigger       => (.processing, some .onStop)
  | .processing, .trigger       => (.processing, none)
  | _,           .setIdle       => (.idle, none)
  | _,           .setProcessing => (.processing, none)

/-- Run a sequence of events from a state, returning the final state. -/
def hkRun (s : HKState) (es : List HKEvent) : HKState :=
  es.foldl (fun t e => (hkStep t e).1) s

/-- State of the machine after the first `n` events of `es`. -/
def hkStateAt (s : HKState) (es : List HKEvent) (n : ℕ) : HKState :=
  hkRun s (es.take n)

/-- The machine enters Recording on the `i`-th event: it was Idle and the
event is a trigger (the only transition whose target is Recording). -/
def hkEntersRecording (s : HKState) (es : List HKEvent) (i : ℕ) : Prop :=
  hkStateAt s es i = .idle ∧ es[i]? = some .trigger

instance (s : HKState) (es : List HKEvent) (i : ℕ) :
    Decidable (hkEntersRecording s es i) := by
  unfold hkEntersRecording; infer_instance

theorem hkRun_append (s : HKState) (es fs : List HKEvent) :
    hkRun s (es ++ fs) = hkRun (hkRun s es) fs := by
  simp [hkRun, List.foldl_append]

/-- Without a `set_idle` event the machine never returns to Idle from a
non-Idle state. -/
theorem hkRun_ne_idle (es : List HKEvent) :
    ∀ s : HKState, s ≠ .idle → (∀ e ∈ es, e ≠ HKEvent.setIdle) →
      hkRun s es ≠ .idle := by
  induction es with
  | nil => intro s hs _ ; simpa [hkRun] using hs
  | cons e es ih =>
    intro s hs hes
    have he : e ≠ HKEvent.setIdle := hes e (List.mem_cons_self e es)
    have hes' : ∀ e' ∈ es, e' ≠ HKEvent.setIdle := fun e' h' =>
      hes e' (List.mem_cons_of_mem e h')
    have hstep : (hkStep s e).1 ≠ .idle := by
      cases s <;> cases e <;> simp_all [hkStep]
    simpa [hkRun] using ih (hkStep s e).1 hstep hes'

theorem hkStateAt_succ (s : HKState) (es : List HKEvent) (i : ℕ)
    (h : es[i]? = some .trigger) (hidle : hkStateAt s es i = .idle) :
    hkStateAt s es (i + 1) = .recording := by
  have htake : es.take (i + 1) = es.take i ++ [HKEvent.trigger] := by
    rw [List.take_succ, h]
    rfl
  unfold hkStateAt at *
  rw [htake, hkRun_append, hidle]
  rfl

/-- C1: for every sequence of events delivered to the hotkey state machine, the
state never enters Recording twice without an intervening `set_idle` (the
explicit Processing→Idle completion signal issued by the orchestrator), and a
trigger delivered while the state is Processing leaves the state unchanged and
spawns no callback. -/
theorem hotkey_no_double_recording (s : HKState) (es : List HKEvent) (i j : ℕ)
    (hij : i < j) (hi : hkEntersRecording s es i) (hj : hkEntersRecording s es j) :
    (∃ k, i < k ∧ k < j ∧ es[k]? = some HKEvent.setIdle) ∧
      hkStep HKState.processing HKEvent.trigger = (HKState.processing, none) := by
  refine ⟨?_, rfl⟩
  by_contra hcon
  push_neg at hcon
  have hrec : hkStateAt s es (i + 1) = .recording := hkStateAt_succ s es i hi.2 hi.1
  have hsplit : es.take j = es.take (i + 1) ++ (es.drop (i + 1)).take (j - (i + 1)) := by
    conv_lhs => rw [show j = (i + 1) + (j - (i + 1)) by omega]
    rw [List.take_add]
  have hmid : ∀ e ∈ (es.drop (i + 1)).take (j - (i + 1)), e ≠ HKEvent.setIdle := by
    intro e he heq
    obtain ⟨m, hm, hget⟩ := List.getElem_of_mem he
    have hmlt : m < j - (i + 1) :=
      lt_of_lt_of_le hm (List.length_take_le _ _)
    have h1 : ((es.drop (i + 1)).take (j - (i + 1)))[m]? = some e := by
      rw [List.getElem?_eq_getElem hm, hget]
    have h2 : es[(i + 1) + m]? = some e := by
      rw [← List.getElem?_drop, ← List.getElem?_take_of_lt hmlt, h1]
    exact hcon ((i + 1) + m) (by omega) (by omega) (heq ▸ h2)
  have hne : hkStateAt s es j ≠ .idle := by
    unfold hkStateAt
    rw [hsplit, hkRun_append]
    exact hkRun_ne_idle _ _ (by unfold hkStateAt at hrec; rw [hrec]; simp) hmid
  exact hne hj.1

/-- Witness for C1 at a concrete trace: Idle, events
[trigger, trigger, setIdle, trigger]; Recording is entered at indices 0 and 3,
and the theorem yields the intervening `set_idle`. -/
theorem hotkey_no_double_recording_witness :
    (∃ k, 0 < k ∧ k < 3 ∧
        [HKEvent.trigger, HKEvent.trigger, HKEvent.setIdle, HKEvent.trigger][k]? =
          some HKEvent.setIdle) ∧
      hkStep HKState.processing HKEvent.trigger = (HKState.processing, none) :=
  hotkey_no_double_recording HKState.idle
    [HKEvent.trigger, HKEvent.trigger, HKEvent.setIdle, HKEvent.trigger] 0 3
    (by decide) (by decide) (by decide)

/-! ## Audio recorder (`src/audio.py`, `AudioRecorder`) -/

/-- The mutable fields of `AudioRecorder`: `_recording`, `_audio_data` (the
accumulated list of blocks, each a list of mono samples), `_recording_start`
(wall-clock timestamp, `None` before the first start) and the configured
`sample_rate`.  Samples and times are modelled as `ℚ`. -/
structure RecorderState where
  recording : Bool
  blocks : List (List ℚ)
  startTime : Option ℚ
  sampleRate : ℚ
deriving DecidableEq, Repr

/-- The `AudioData` dataclass of `src/audio.py`. -/
structure AudioData where
  audio : List ℚ
  sampleRate : ℚ
  duration : ℚ
deriving DecidableEq, Repr

/-- `AudioRecorder.start_recording`.  If already recording it returns
immediately (a silent no-op).  Otherwise it sets `_recording = True`, clears
`_audio_data` and stamps `_recording_start`, and only then opens the input
stream; `deviceOk = false` models `sd.InputStream(...)`/`stream.start()`
raising, which happens after the flags were already mutated.  The returned
`Bool` is `true` iff no exception was raised. -/
def startRecording (deviceOk : Bool) (now : ℚ) (r : RecorderState) :
    RecorderState × Bool :=
  if r.recording then (r, true)
  else
    let r' : RecorderState :=
      { r with recording := true, blocks := [], startTime := some now }
    (r', deviceOk)

/-- `AudioRecorder._audio_callback`: append the incoming block to
`_audio_data`, unless recording has been switched off. -/
def audioCallback (r : RecorderState) (blk : List ℚ) : RecorderState :=
  if r.recording then { r with blocks := r.blocks ++ [blk] } else r

/-- `AudioRecorder.stop_recording`: returns `None` when not recording or when
no blocks were accumulated; otherwise clears `_recording` and `_audio_data`,
concatenates the blocks and returns an `AudioData` whose duration is
`len(audio) / sample_rate`. -/
def stopRecording (r : RecorderState) : RecorderState × Option AudioData :=
  if !r.recording then (r, none)
  else
    let r1 : RecorderState := { r with recording := false }
    if r1.blocks = [] then (r1, none)
    else
      let audio := r1.blocks.flatten
      let dur : ℚ := (audio.length : ℚ) / r1.sampleRate
      ({ r1 with blocks := [] },
        some { audio := audio, sampleRate := r1.sampleRate, duration := dur })

/-- `AudioRecorder.is_recording`. -/
def isRecording (r : RecorderState) : Bool := r.recording

/-- `AudioRecorder.get_recording_duration`: wall-clock elapsed time while a
recording is active (`_recording_start` set and `_recording` true), the
accumulated sample count divided by the sample rate otherwise when blocks
remain, and `0.0` as the fallback. -/
def getRecordingDuration (now : ℚ) (r : RecorderState) : ℚ :=
  match r.startTime, r.recording with
  | some t, true => now - t
  | _, _ =>
    if r.blocks ≠ [] then ((r.blocks.flatten.length : ℚ)) / r.sampleRate
    else 0

/-- C4: `stop_recording` called without a prior successful start (not
recording), or after a capture that accumulated zero blocks, returns the
"no data" result `None`; the embedding is a total function, so no exception is
raised on these paths. -/
theorem stopRecording_no_data (r : RecorderState) :
    (r.recording = false → stopRecording r = (r, none)) ∧
      (r.recording = true → r.blocks = [] →
        stopRecording r =
          ({ r with recording := false }, none)) := by
  constructor
  · intro h
    simp [stopRecording, h]
  · intro h hb
    simp [stopRecording, h, hb]

/-- Witness for C4: a fresh recorder (never started) and a started-but-empty
recorder both yield `None`. -/
theorem stopRecording_no_data_witness :
    stopRecording { recording := false, blocks := [], startTime := none, sampleRate := 16000 } =
      ({ recording := false, blocks := [], startTime := none, sampleRate := 16000 }, none) ∧
    (stopRecording { recording := true, blocks := [], startTime := some 5, sampleRate := 16000 }).2 = none := by
  constructor
  · exact (stopRecording_no_data _).1 rfl
  · rw [(stopRecording_no_data { recording := true, blocks := [], startTime := some 5, sampleRate := 16000 }).2 rfl rfl]

/-- C5: when a recording accumulated blocks `bs` (each block nonempty, as
delivered by the 100 ms fixed-size stream callback) and the sample rate is
positive, `stop_recording` returns a buffer whose length is the sum of the
block sizes, with duration equal to that length divided by the sample rate;
and if the capture produced zero samples (no blocks) the result is `None`
rather than an empty buffer. -/
theorem stopRecording_concat (r : RecorderState) (hrec : r.recording = true)
    (hrate : 0 < r.sampleRate) (hblk : ∀ b ∈ r.blocks, b ≠ []) :
    (r.blocks ≠ [] →
      (stopRecording r).2 =
        some { audio := r.blocks.flatten, sampleRate := r.sampleRate,
               duration := ((r.blocks.map List.length).sum : ℚ) / r.sampleRate } ∧
      r.blocks.flatten.length = (r.blocks.map List.length).sum) ∧
    (r.blocks.flatten.length = 0 → (stopRecording r).2 = none) := by
  constructor
  · intro hne
    refine ⟨?_, List.length_flatten r.blocks⟩
    simp [stopRecording, hrec, hne, List.length_flatten]
  · intro hzero
    have hb : r.blocks = [] := by
      by_contra hne
      obtain ⟨b, bs, hcons⟩ := List.exists_cons_of_ne_nil hne
      have hbne : b ≠ [] := hblk b (by rw [hcons]; exact List.mem_cons_self b bs)
      have : b.length + bs.flatten.length = 0 := by
        simpa [hcons, List.flatten_cons] using hzero
      have : b.length = 0 := by omega
      exact hbne (List.eq_nil_of_length_eq_zero this)
    simp [stopRecording, hrec, hb]

/-- Witness for C5: two accumulated blocks of sizes 2 and 1 at sample rate 3
yield a buffer of length 3 and duration 1. -/
theorem stopRecording_concat_witness :
    ((stopRecording { recording := true, blocks := [[1, 2], [3]], startTime := some 0, sampleRate := 3 }).2 =
      some { audio := [1, 2, 3], sampleRate := 3, duration := 1 } ∧
      ([[(1 : ℚ), 2], [3]].flatten.length = ([[(1 : ℚ), 2], [3]].map List.length).sum)) := by
  have h := (stopRecording_concat { recording := true, blocks := [[1, 2], [3]], startTime := some 0, sampleRate := 3 } rfl (by norm_num)
      (by intro b hb; fin_cases hb <;> simp)).1 (by simp)
  refine ⟨?_, h.2⟩
  rw [h.1]
  norm_num

/-- C7: `get_recording_duration` is computed from wall-clock elapsed time
while a recording is active, and from the accumulated sample count divided by
the sample rate once recording has stopped (while blocks remain) — two
different formulas. -/
theorem getRecordingDuration_formulas (now t : ℚ) (r : RecorderState) :
    (r.startTime = some t → r.recording = true →
      getRecordingDuration now r = now - t) ∧
    (r.recording = false → r.blocks ≠ [] →
      getRecordingDuration now r =
        ((r.blocks.map List.length).sum : ℚ) / r.sampleRate) := by
  constructor
  · intro hst hrec
    simp [getRecordingDuration, hst, hrec]
  · intro hrec hb
    rcases hst : r.startTime with _ | t'
    · simp [getRecordingDuration, hst, hrec, hb, List.length_flatten]
    · simp [getRecordingDuration, hst, hrec, hb, List.length_flatten]

/-- Witness for C7: while recording, duration is wall-clock (10 - 4 = 6);
after stopping with 3 samples at rate 3 it is 1. -/
theorem getRecordingDuration_formulas_witness :
    getRecordingDuration 10 { recording := true, blocks := [[1, 2], [3]], startTime := some 4, sampleRate := 3 } = 6 ∧
    getRecordingDuration 10 { recording := false, blocks := [[1, 2], [3]], startTime := some 4, sampleRate := 3 } = 1 := by
  constructor
  · rw [(getRecordingDuration_formulas 10 4 _).1 rfl rfl]
    norm_num
  · rw [(getRecordingDuration_formulas 10 4 _).2 rfl (by simp)]
    norm_num

/-- C9: when `stop_recording` returns a buffer, the resulting recorder state is
not recording, its block collection is empty, and an immediately following
`stop_recording` returns `None`: the audio is delivered out exactly once. -/
theorem stopRecording_delivers_once (r r' : RecorderState) (d : AudioData)
    (h : stopRecording r = (r', some d)) :
    r'.recording = false ∧ r'.blocks = [] ∧ (stopRecording r').2 = none := by
  by_cases hrec : r.recording
  · by_cases hb : r.blocks = []
    · simp [stopRecording, hrec, hb] at h
    · simp only [stopRecording, hrec, hb] at h
      simp only [Bool.not_true, Bool.false_eq_true, if_neg, reduceIte] at h
      have hr' : r' = { r with recording := false, blocks := [] } := by
        have := congrArg Prod.fst h
        simpa using this.symm
      subst hr'
      refine ⟨rfl, rfl, ?_⟩
      simp [stopRecording]
  · simp [stopRecording, hrec] at h

/-- Witness for C9: stopping a recorder holding one block empties it, and a
second stop yields `None`. -/
theorem stopRecording_delivers_once_witness :
    ({ recording := false, blocks := [], startTime := some 0, sampleRate := 2 } : RecorderState).recording = false ∧
    ({ recording := false, blocks := [], startTime := some 0, sampleRate := 2 } : RecorderState).blocks = [] ∧
    (stopRecording { recording := false, blocks := [], startTime := some 0, sampleRate := 2 }).2 = none :=
  stopRecording_delivers_once
    { recording := true, blocks := [[1, 2]], startTime := some 0, sampleRate := 2 }
    { recording := false, blocks := [], startTime := some 0, sampleRate := 2 }
    { audio := [1, 2], sampleRate := 2, duration := 1 }
    (by norm_num [stopRecording])

/-! ## Media controller (`src/media_control.py`, `MediaController`) -/

/-- Outcome of one sync-over-async bridge call (`_run_async`): the worker
thread completed with the coroutine's value, hit the 5 s join timeout, or
raised. -/
inductive BridgeResult (α : Type)
  | value (a : α)
  | timeout
  | failure
deriving DecidableEq, Repr

/-- `MediaController._run_async`: given the coroutine body and the bridge
outcome, return `None` when the worker timed out or raised, otherwise the
coroutine's result. -/
def runAsyncBridge {σ α : Type} (coro : σ → α) : BridgeResult σ → Option α
  | .value s => some (coro s)
  | .timeout => none
  | .failure => none

/-- What `_is_media_playing_async` finds when it requests a fresh session:
`request_async` returning no manager, no current session, no playback info,
an exception inside the coroutine, or a playback status. -/
inductive SessionProbe
  | noManager
  | noSession
  | noPlaybackInfo
  | raised
  | status (playing : Bool)
deriving DecidableEq, Repr

/-- `MediaController._is_media_playing_async`: `False` on every failure
branch, and `status == PLAYING` otherwise. -/
def isMediaPlayingAsync : SessionProbe → Bool
  | .status b => b
  | _ => false

/-- What `_pause_async` / `_play_async` find: no manager, no session, an
exception, or the result of `try_pause_async` / `try_play_async`. -/
inductive SessionAct
  | noManager
  | noSession
  | raised
  | result (ok : Bool)
deriving DecidableEq, Repr

/-- `MediaController._pause_async`: `False` on every failure branch, else the
result of `try_pause_async`. -/
def pauseAsync : SessionAct → Bool
  | .result b => b
  | _ => false

/-- `MediaController._play_async`: `False` on every failure branch, else the
result of `try_play_async`. -/
def playAsync : SessionAct → Bool
  | .result b => b
  | _ => false

/-- `MediaController.is_media_playing`: `False` when WinRT is unavailable,
else bridge `_is_media_playing_async` and map a `None` bridge result to
`False`. -/
def mcIsMediaPlaying (available : Bool) (br : BridgeResult SessionProbe) : Bool :=
  if available then
    match runAsyncBridge isMediaPlayingAsync br with
    | some b => b
    | none => false
  else false

/-- `MediaController.pause`. -/
def mcPause (available : Bool) (br : BridgeResult SessionAct) : Bool :=
  if available then
    match runAsyncBridge pauseAsync br with
    | some b => b
    | none => false
  else false

/-- `MediaController.play`. -/
def mcPlay (available : Bool) (br : BridgeResult SessionAct) : Bool :=
  if available then
    match runAsyncBridge playAsync br with
    | some b => b
    | none => false
  else false

/-- C6: `is_media_playing`, `pause` and `play` are total functions that return
`False` whenever the platform capability is unavailable, the bridge times out
or the worker raises, or the coroutine hits an internal failure (no manager,
no session, no playback info, platform exception); timeout and failure yield
the same `False` outcome.  (The final clauses show the success paths do
return the platform's answer, so the functions are not constantly false.) -/
theorem mediaController_fail_soft (av : Bool) (br : BridgeResult SessionProbe)
    (ba : BridgeResult SessionAct) :
    (av = false →
      mcIsMediaPlaying av br = false ∧ mcPause av ba = false ∧ mcPlay av ba = false) ∧
    (mcIsMediaPlaying av .timeout = false ∧ mcPause av .timeout = false ∧
      mcPlay av .timeout = false ∧
      mcIsMediaPlaying av .timeout = mcIsMediaPlaying av .failure ∧
      mcPause av .timeout = mcPause av .failure ∧
      mcPlay av .timeout = mcPlay av .failure) ∧
    (∀ p : SessionProbe, (∀ b, p ≠ .status b) →
      mcIsMediaPlaying av (.value p) = false) ∧
    (∀ a : SessionAct, (∀ b, a ≠ .result b) →
      mcPause av (.value a) = false ∧ mcPlay av (.value a) = false) ∧
    (∀ b : Bool, mcIsMediaPlaying true (.value (.status b)) = b ∧
      mcPause true (.value (.result b)) = b ∧ mcPlay true (.value (.result b)) = b) := by
  refine ⟨?_, ?_, ?_, ?_, ?_⟩
  · intro h
    simp [mcIsMediaPlaying, mcPause, mcPlay, h]
  · cases av <;>
      simp [mcIsMediaPlaying, mcPause, mcPlay, runAsyncBridge]
  · intro p hp
    cases p <;>
      simp_all [mcIsMediaPlaying, runAsyncBridge, isMediaPlayingAsync]
  · intro a ha
    cases a <;>
      simp_all [mcPause, mcPlay, runAsyncBridge, pauseAsync, playAsync]
  · intro b
    simp [mcIsMediaPlaying, mcPause, mcPlay, runAsyncBridge,
      isMediaPlayingAsync, pauseAsync, playAsync]

/-- Witness for C6 at a concrete point: with the capability unavailable every
call returns `False`, and a bridge timeout returns `False`. -/
theorem mediaController_fail_soft_witness :
    (mcIsMediaPlaying false (.value (.status true)) = false ∧
      mcPause false .timeout = false ∧ mcPlay false .timeout = false) ∧
    mcIsMediaPlaying true (.value .noSession) = false :=
  ⟨(mediaController_fail_soft false (.value (.status true)) .timeout).1 rfl,
    ((mediaController_fail_soft true (.value (.status true)) .timeout).2.2.1
      .noSession (by intro b h; cases h))⟩

/-! ## Orchestrator (`src/main.py`, `MurmurApp`) -/

/-- Observable actions of one recording cycle, in program order: user-facing
notifications, media-control calls, snapshot writes of `_was_media_playing`,
hotkey-state overwrites, and a successful clipboard delivery. -/
inductive Act
  | notifyRecStarted
  | notifyPauseFailed
  | notifyError
  | notifyResumeFailed
  | notifyRecStopped
  | notifyNoSpeech
  | notifyNoAudio
  | snapshotWrite (b : Bool)
  | pauseCall
  | playCall
  | hkSet (s : HKState)
  | copied (text : String)
deriving DecidableEq, Repr

/-- `snapshotWrite` recognizer (the one assignment
`self._was_media_playing = self.media_controller.is_media_playing()`). -/
def actIsSnapshot : Act → Bool
  | .snapshotWrite _ => true
  | _ => false

/-- `pauseCall` recognizer. -/
def actIsPause : Act → Bool
  | .pauseCall => true
  | _ => false

/-- `playCall` recognizer. -/
def actIsPlay : Act → Bool
  | .playCall => true
  | _ => false

/-- The per-cycle environment: the configuration flag
`pause_media_while_recording`, the outcomes of the best-effort media-control
calls, whether opening the capture stream succeeds, the transcription outcome
(text or raised exception) and the clipboard outcome. -/
structure CycleEnv where
  pauseOpt : Bool
  observeOk : Bool
  pauseOk : Bool
  playOk : Bool
  deviceOk : Bool
  transcribed : Except Unit String
  copyOk : Bool
deriving Repr

/-- Application state: the hotkey machine state, the orchestrator's
`_was_media_playing` snapshot, the recorder, and the actual OS media playback
state. -/
structure AppState where
  hotkey : HKState
  wasMediaPlaying : Bool
  recorder : RecorderState
  mediaPlaying : Bool
deriving DecidableEq, Repr

/-- `media_controller.is_media_playing()` as seen by the orchestrator: the
true playback state when the probe succeeds, `False` on any failure (C6). -/
def ctlIsPlaying (env : CycleEnv) (s : AppState) : Bool :=
  env.observeOk && s.mediaPlaying

/-- `media_controller.pause()`: on success the OS media stops playing. -/
def ctlPause (env : CycleEnv) (s : AppState) : AppState × Bool :=
  if env.pauseOk then ({ s with mediaPlaying := false }, true) else (s, false)

/-- `media_controller.play()`: on success the OS media resumes playing. -/
def ctlPlay (env : CycleEnv) (s : AppState) : AppState × Bool :=
  if env.playOk then ({ s with mediaPlaying := true }, true) else (s, false)

/-- `MurmurApp._on_recording_start` (runs with the hotkey state already set to
Recording by `_on_hotkey_pressed`): when `pause_media_while_recording` is
enabled, snapshot `is_media_playing()` into `_was_media_playing` and pause
when it was playing; then try `recorder.start_recording()`; on failure notify
the error, force Idle, and if the snapshot was set resume media and clear the
snapshot. -/
def onRecordingStart (env : CycleEnv) (now : ℚ) (s : AppState) :
    AppState × List Act :=
  let a0 : List Act := [.notifyRecStarted]
  let pr :=
    if env.pauseOpt then
      let obs := ctlIsPlaying env s
      let s1 : AppState := { s with wasMediaPlaying := obs }
      if obs then
        let pp := ctlPause env s1
        if pp.2 then (pp.1, [Act.snapshotWrite obs, Act.pauseCall])
        else (pp.1, [Act.snapshotWrite obs, Act.pauseCall, Act.notifyPauseFailed])
      else (s1, [Act.snapshotWrite obs])
    else (s, ([] : List Act))
  let rr := startRecording env.deviceOk now pr.1.recorder
  let s2 : AppState := { pr.1 with recorder := rr.1 }
  if rr.2 then (s2, a0 ++ pr.2)
  else
    let s3 : AppState := { s2 with hotkey := HKState.idle }
    if s3.wasMediaPlaying then
      let pl := ctlPlay env s3
      ({ pl.1 with wasMediaPlaying := false },
        a0 ++ pr.2 ++ [Act.notifyError, Act.hkSet HKState.idle, Act.playCall])
    else (s3, a0 ++ pr.2 ++ [Act.notifyError, Act.hkSet HKState.idle])

/-- `MurmurApp._process_audio`: mark Processing, notify, transcribe, deliver
non-empty text to the clipboard (reporting a copy failure), report "no speech"
on empty text, catch transcription errors, and finally force Idle. -/
def processAudio (env : CycleEnv) (s : AppState) : AppState × List Act :=
  let s1 : AppState := { s with hotkey := HKState.processing }
  let a : List Act := [Act.hkSet HKState.processing, Act.notifyRecStopped]
  match env.transcribed with
  | .error _ =>
      ({ s1 with hotkey := HKState.idle },
        a ++ [Act.notifyError, Act.hkSet HKState.idle])
  | .ok text =>
      if text ≠ "" then
        if env.copyOk then
          ({ s1 with hotkey := HKState.idle },
            a ++ [Act.copied text, Act.hkSet HKState.idle])
        else
          ({ s1 with hotkey := HKState.idle },
            a ++ [Act.notifyError, Act.hkSet HKState.idle])
      else
        ({ s1 with hotkey := HKState.idle },
          a ++ [Act.notifyNoSpeech, Act.hkSet HKState.idle])

/-- `MurmurApp._on_recording_stop` (runs with the hotkey state already set to
Processing by `_on_hotkey_pressed`): stop the recorder, resume media when the
snapshot is set (clearing the snapshot whether or not resume succeeded), then
process the audio, or force Idle when no audio was captured. -/
def onRecordingStop (env : CycleEnv) (s : AppState) : AppState × List Act :=
  let rr := stopRecording s.recorder
  let s1 : AppState := { s with recorder := rr.1 }
  let pr :=
    if s1.wasMediaPlaying then
      let pl := ctlPlay env s1
      let acts := if pl.2 then [Act.playCall]
        else [Act.playCall, Act.notifyResumeFailed]
      ({ pl.1 with wasMediaPlaying := false }, acts)
    else (s1, ([] : List Act))
  match rr.2 with
  | some _ =>
      let pa := processAudio env pr.1
      (pa.1, pr.2 ++ pa.2)
  | none =>
      ({ pr.1 with hotkey := HKState.idle },
        pr.2 ++ [Act.notifyNoAudio, Act.hkSet HKState.idle])

/-- One full recording cycle: a hotkey press in Idle moves the machine to
Recording and spawns `_on_recording_start`; if the start failed the machine is
already back in Idle and the cycle ends; otherwise the driver delivers the
audio blocks, a second press moves the machine to Processing and spawns
`_on_recording_stop`. -/
def cycle (env : CycleEnv) (now : ℚ) (blks : List (List ℚ)) (s : AppState) :
    AppState × List Act :=
  let s1 : AppState := { s with hotkey := HKState.recording }
  let pr := onRecordingStart env now s1
  if pr.1.hotkey = HKState.idle then pr
  else
    let s3 : AppState := { pr.1 with recorder := blks.foldl audioCallback pr.1.recorder }
    let s4 : AppState := { s3 with hotkey := HKState.processing }
    let pq := onRecordingStop env s4
    (pq.1, pr.2 ++ pq.2)

/-- The application states at the start of each cycle of a multi-cycle run. -/
def cycleStarts : List (CycleEnv × ℚ × List (List ℚ)) → AppState → List AppState
  | [], _ => []
  | (env, now, blks) :: rest, s => s :: cycleStarts rest (cycle env now blks s).1

/-- Environment of C2's failing cycle: media is pausable and playing, but
opening the capture device fails (`sd.InputStream` raises). -/
def c2Env : CycleEnv :=
  { pauseOpt := true, observeOk := true, pauseOk := true, playOk := true,
    deviceOk := false, transcribed := Except.ok "", copyOk := true }

/-- A freshly started application: Idle, no snapshot, fresh recorder, media
playing. -/
def freshApp : AppState :=
  { hotkey := HKState.idle, wasMediaPlaying := false,
    recorder := { recording := false, blocks := [], startTime := none,
                  sampleRate := 16000 },
    mediaPlaying := true }

/-- C2 (evaluation at the failing input): when `start_recording` raises while
opening the device, the orchestrator notifies the failure, resumes the media
it paused, never reaches Processing and ends Idle — but the recorder is left
with `_recording = True` (`is_recording()` answers true), because
`start_recording` sets the flag before opening the stream and the exception
path never clears it; the claim's "recorder is left in a not-recording state"
is violated. -/
theorem failed_start_leaves_recorder_flag_set :
    (cycle c2Env 0 [] freshApp).2 =
      [Act.notifyRecStarted, Act.snapshotWrite true, Act.pauseCall,
        Act.notifyError, Act.hkSet HKState.idle, Act.playCall] ∧
    (cycle c2Env 0 [] freshApp).1.hotkey = HKState.idle ∧
    Act.hkSet HKState.processing ∉ (cycle c2Env 0 [] freshApp).2 ∧
    (cycle c2Env 0 [] freshApp).1.mediaPlaying = true ∧
    (cycle c2Env 0 [] freshApp).1.wasMediaPlaying = false ∧
    isRecording (cycle c2Env 0 [] freshApp).1.recorder = true := by
  decide

theorem onRecordingStop_facts (env : CycleEnv) (s : AppState) :
    (onRecordingStop env s).1.wasMediaPlaying = false ∧
    (onRecordingStop env s).2.countP actIsPause = 0 ∧
    (onRecordingStop env s).2.countP actIsSnapshot = 0 ∧
    (onRecordingStop env s).2.countP actIsPlay ≤ 1 ∧
    (Act.playCall ∈ (onRecordingStop env s).2 → s.wasMediaPlaying = true) := by
  unfold onRecordingStop processAudio ctlPlay
  by_cases hw : s.wasMediaPlaying <;> by_cases hp : env.playOk <;>
    rcases ht : env.transcribed with e | t <;>
    rcases hr : (stopRecording s.recorder).2 with _ | d <;>
    by_cases hc : env.copyOk <;>
    first
      | (by_cases htx : t = "" <;> simp_all [actIsPause, actIsSnapshot, actIsPlay])
      | simp_all [actIsPause, actIsSnapshot, actIsPlay]

set_option maxHeartbeats 3200000 in
theorem onRecordingStart_facts (env : CycleEnv) (now : ℚ) (s : AppState) :
    (onRecordingStart env now s).2.countP actIsPause ≤ 1 ∧
    (onRecordingStart env now s).2.countP actIsSnapshot ≤ 1 ∧
    (onRecordingStart env now s).2.countP actIsPlay ≤ 1 ∧
    ((onRecordingStart env now s).1.hotkey ≠ HKState.idle →
      (onRecordingStart env now s).2.countP actIsPlay = 0 ∧
      (onRecordingStart env now s).1.hotkey = s.hotkey) ∧
    ((onRecordingStart env now s).1.wasMediaPlaying = true →
      Act.snapshotWrite true ∈ (onRecordingStart env now s).2 ∨
        s.wasMediaPlaying = true) ∧
    (Act.playCall ∈ (onRecordingStart env now s).2 →
      Act.snapshotWrite true ∈ (onRecordingStart env now s).2 ∨
        s.wasMediaPlaying = true) ∧
    (s.hotkey = HKState.recording → (onRecordingStart env now s).1.hotkey = HKState.idle →
      (onRecordingStart env now s).1.wasMediaPlaying = false) := by
  unfold onRecordingStart ctlPause ctlPlay ctlIsPlaying startRecording
  by_cases hpo : env.pauseOpt <;> by_cases hoo : env.observeOk <;>
    by_cases hmp : s.mediaPlaying <;> by_cases hpk : env.pauseOk <;>
    by_cases hrec : s.recorder.recording <;> by_cases hdev : env.deviceOk <;>
    by_cases hpl : env.playOk <;> by_cases hwm : s.wasMediaPlaying <;>
    simp_all [actIsPause, actIsSnapshot, actIsPlay]

/-- Recorder-and-hotkey state at the second hotkey press of a successful
cycle: the post-start state with the delivered blocks appended and the machine
moved to Processing. -/
def startOkState (env : CycleEnv) (now : ℚ) (blks : List (List ℚ))
    (s : AppState) : AppState :=
  { (onRecordingStart env now { s with hotkey := HKState.recording }).1 with
    hotkey := HKState.processing,
    recorder := blks.foldl audioCallback
      (onRecordingStart env now { s with hotkey := HKState.recording }).1.recorder }

theorem cycle_eq_of_start_failed (env : CycleEnv) (now : ℚ)
    (blks : List (List ℚ)) (s : AppState)
    (hb : (onRecordingStart env now { s with hotkey := HKState.recording }).1.hotkey =
      HKState.idle) :
    cycle env now blks s = onRecordingStart env now { s with hotkey := HKState.recording } := by
  unfold cycle
  simp [hb]

theorem cycle_eq_of_start_ok (env : CycleEnv) (now : ℚ)
    (blks : List (List ℚ)) (s : AppState)
    (hb : (onRecordingStart env now { s with hotkey := HKState.recording }).1.hotkey ≠
      HKState.idle) :
    cycle env now blks s =
      ((onRecordingStop env (startOkState env now blks s)).1,
        (onRecordingStart env now { s with hotkey := HKState.recording }).2 ++
          (onRecordingStop env (startOkState env now blks s)).2) := by
  unfold cycle startOkState
  simp [hb]

/-- The snapshot is cleared by the end of every cycle, whatever happens. -/
theorem cycle_resets_snapshot (env : CycleEnv) (now : ℚ) (blks : List (List ℚ))
    (s : AppState) : (cycle env now blks s).1.wasMediaPlaying = false := by
  by_cases hb : (onRecordingStart env now { s with hotkey := HKState.recording }).1.hotkey =
      HKState.idle
  · rw [cycle_eq_of_start_failed env now blks s hb]
    exact (onRecordingStart_facts env now _).2.2.2.2.2.2 rfl hb
  · rw [cycle_eq_of_start_ok env now blks s hb]
    exact (onRecordingStop_facts env _).1

/-- C3: starting a cycle with the media snapshot false, the snapshot is false
again at cycle end (reset after the stop step's resume attempt, whatever the
resume returned), the snapshot is written at most once, pause and resume are
each invoked at most once, a resume only ever follows a true snapshot written
this same cycle, and in any multi-cycle run every cycle starts with the
snapshot false. -/
theorem media_snapshot_lifecycle (env : CycleEnv) (now : ℚ)
    (blks : List (List ℚ)) (s : AppState) (h : s.wasMediaPlaying = false) :
    (cycle env now blks s).1.wasMediaPlaying = false ∧
    (cycle env now blks s).2.countP actIsSnapshot ≤ 1 ∧
    (cycle env now blks s).2.countP actIsPause ≤ 1 ∧
    (cycle env now blks s).2.countP actIsPlay ≤ 1 ∧
    (Act.playCall ∈ (cycle env now blks s).2 →
      Act.snapshotWrite true ∈ (cycle env now blks s).2) ∧
    (∀ runs : List (CycleEnv × ℚ × List (List ℚ)), ∀ s0 : AppState,
      s0.wasMediaPlaying = false →
      ∀ t ∈ cycleStarts runs s0, t.wasMediaPlaying = false) := by
  have hruns : ∀ runs : List (CycleEnv × ℚ × List (List ℚ)), ∀ s0 : AppState,
      s0.wasMediaPlaying = false →
      ∀ t ∈ cycleStarts runs s0, t.wasMediaPlaying = false := by
    intro runs
    induction runs with
    | nil => intro s0 _ t ht; simp [cycleStarts] at ht
    | cons r rest ih =>
      intro s0 h0 t ht
      rcases r with ⟨e, n, b⟩
      rw [cycleStarts] at ht
      rcases List.mem_cons.mp ht with rfl | ht'
      · exact h0
      · exact ih _ (cycle_resets_snapshot e n b s0) t ht'
  have hs := onRecordingStart_facts env now { s with hotkey := HKState.recording }
  by_cases hb : (onRecordingStart env now { s with hotkey := HKState.recording }).1.hotkey =
      HKState.idle
  · rw [cycle_eq_of_start_failed env now blks s hb]
    refine ⟨hs.2.2.2.2.2.2 rfl hb, hs.2.1, hs.1, hs.2.2.1, ?_, hruns⟩
    intro hpc
    rcases hs.2.2.2.2.2.1 hpc with hsnap | hwm
    · exact hsnap
    · exact absurd hwm (by simp [h])
  · rw [cycle_eq_of_start_ok env now blks s hb]
    obtain ⟨d1, d2, d3, d4, d5⟩ := onRecordingStop_facts env (startOkState env now blks s)
    have hplay0 : (onRecordingStart env now { s with hotkey := HKState.recording }).2.countP
        actIsPlay = 0 := (hs.2.2.2.1 hb).1
    refine ⟨d1, ?_, ?_, ?_, ?_, hruns⟩
    · simp only [List.countP_append]
      have := hs.2.1
      omega
    · simp only [List.countP_append]
      have := hs.1
      omega
    · simp only [List.countP_append]
      omega
    · intro hpc
      rcases List.mem_append.mp hpc with h2 | h5
      · have := List.countP_eq_zero.mp hplay0 _ h2
        simp [actIsPlay] at this
      · have hw4 : (onRecordingStart env now { s with hotkey :=
            HKState.recording }).1.wasMediaPlaying = true := d5 h5
        rcases hs.2.2.2.2.1 hw4 with hsnap | hwm
        · exact List.mem_append_left _ hsnap
        · exact absurd hwm (by simp [h])

/-- Witness for C3 at a concrete cycle (C2's environment over a fresh app):
the snapshot ends false and each media call happened at most once. -/
theorem media_snapshot_lifecycle_witness :
    (cycle c2Env 0 [] freshApp).1.wasMediaPlaying = false ∧
    (cycle c2Env 0 [] freshApp).2.countP actIsSnapshot ≤ 1 ∧
    (cycle c2Env 0 [] freshApp).2.countP actIsPause ≤ 1 ∧
    (cycle c2Env 0 [] freshApp).2.countP actIsPlay ≤ 1 ∧
    (Act.playCall ∈ (cycle c2Env 0 [] freshApp).2 →
      Act.snapshotWrite true ∈ (cycle c2Env 0 [] freshApp).2) :=
  have h := media_snapshot_lifecycle c2Env 0 [] freshApp rfl
  ⟨h.1, h.2.1, h.2.2.1, h.2.2.2.1, h.2.2.2.2.1⟩

/-! ## Transcriber (`src/transcription.py`, `Transcriber`) -/

/-- Peak absolute amplitude, `np.max(np.abs(audio))` (0 for an empty buffer,
which the pipeline never passes since `stop_recording` returns `None` for
empty captures). -/
def peakAbs (xs : List ℚ) : ℚ :=
  (xs.map abs).foldl max 0

/-- The normalization step of `Transcriber.transcribe`: divide every sample by
the peak absolute amplitude, but only when that peak is strictly positive. -/
def normalizeAudio (xs : List ℚ) : List ℚ :=
  if 0 < peakAbs xs then xs.map (fun x => x / peakAbs xs) else xs

theorem peakAbs_of_all_zero (xs : List ℚ) (h : ∀ x ∈ xs, x = 0) :
    peakAbs xs = 0 := by
  unfold peakAbs
  induction xs with
  | nil => simp
  | cons a l ih =>
    have ha : a = 0 := h a (List.mem_cons_self a l)
    have hl : ∀ x ∈ l, x = 0 := fun x hx => h x (List.mem_cons_of_mem a hx)
    simpa [ha] using ih hl

/-- C10: `transcribe` divides each sample by the peak absolute amplitude only
when that peak is strictly positive; all-zero (silent) input has peak 0 and is
passed through unnormalized, so the division is never performed with a zero
divisor. -/
theorem transcribe_normalization (xs : List ℚ) :
    ((∀ x ∈ xs, x = 0) → normalizeAudio xs = xs) ∧
    (0 < peakAbs xs →
      normalizeAudio xs = xs.map (fun x => x / peakAbs xs)) ∧
    (peakAbs xs = 0 → normalizeAudio xs = xs) := by
  refine ⟨?_, ?_, ?_⟩
  · intro h
    simp [normalizeAudio, peakAbs_of_all_zero xs h]
  · intro h
    simp [normalizeAudio, h]
  · intro h
    simp [normalizeAudio, h]

/-- Witness for C10: silence `[0, 0, 0]` passes through unchanged; a buffer
with peak 2 is divided by 2. -/
theorem transcribe_normalization_witness :
    normalizeAudio [0, 0, 0] = [0, 0, 0] ∧
    normalizeAudio [1, -2] = [1, -2].map (fun x => x / peakAbs [1, -2]) := by
  constructor
  · exact (transcribe_normalization [0, 0, 0]).1 (by decide)
  · exact (transcribe_normalization [1, -2]).2.1 (by norm_num [peakAbs])

/-! ## Text post-processing (`src/transcription.py`, `_post_process` /
`_fix_common_issues`)

The three `re.sub` calls are embedded as character-list transforms.  `\s` is
modelled by `Char.isWhitespace` (space, tab, CR, LF) and `[a-z]` by
`Char.isLower` (ASCII `a`–`z`), exactly the ASCII behavior of the source's
patterns. -/

/-- `\s` of the source's regexes. -/
def isWs (c : Char) : Bool := c.isWhitespace

/-- The character class `[.,!?;:]` of `re.sub(r'\s+([.,!?;:])', r'\1', ...)`. -/
def isPunctG (c : Char) : Bool :=
  c = '.' || c = ',' || c = '!' || c = '?' || c = ';' || c = ':'

/-- The character class `[.!?]`: sentence-ending punctuation, used both by the
terminal-punctuation check and by `re.sub(r'([.!?])\s+([a-z])', ...)`. -/
def isSentEnd (c : Char) : Bool :=
  c = '.' || c = '!' || c = '?'

/-- `re.sub(r'\s+', ' ', text)`: each maximal run of whitespace becomes one
space.  Scanning left to right, a whitespace character followed by more
whitespace is dropped (the run's single output space is emitted at its last
character). -/
def collapseWs : List Char → List Char
  | [] => []
  | [c] => if isWs c then [' '] else [c]
  | c :: d :: cs =>
    if isWs c then
      if isWs d then collapseWs (d :: cs) else ' ' :: collapseWs (d :: cs)
    else c :: collapseWs (d :: cs)

/-- One step of `re.sub(r'\s+([.,!?;:])', r'\1', text)`, processing right to
left: a whitespace character whose (already processed) suffix starts with a
punctuation character is part of a `\s+` run immediately followed by that
punctuation, hence deleted; every other character is kept.  Right-to-left
processing is equivalent to the regex's left-to-right scan because the
substitution deletes whitespace only and never changes which character follows
a run. -/
def rmWsStep (c : Char) (acc : List Char) : List Char :=
  if isWs c then
    match acc with
    | p :: _ => if isPunctG p then acc else c :: acc
    | [] => [c]
  else c :: acc

/-- `re.sub(r'\s+([.,!?;:])', r'\1', text)`. -/
def rmWsBeforePunct (l : List Char) : List Char := l.foldr rmWsStep []

/-- One step of `re.sub(r'([.!?])\s+([a-z])', punct + ' ' + upper, text)`,
processing right to left: at a sentence-ending character whose suffix starts
with a nonempty whitespace run followed by an ASCII lowercase letter, the run
collapses to a single space and the letter is uppercased (the match consumes
run and letter, so the remainder `rs` is taken as already processed); anything
else is kept.  Matches never overlap and only depend on characters to the
right, so right-to-left processing agrees with the regex. -/
def capStep (c : Char) (acc : List Char) : List Char :=
  if isSentEnd c then
    if (acc.takeWhile isWs).isEmpty then c :: acc
    else
      match acc.dropWhile isWs with
      | d :: rs => if d.isLower then c :: ' ' :: d.toUpper :: rs else c :: acc
      | [] => c :: acc
  else c :: acc

/-- `re.sub(r'([.!?])\s+([a-z])', lambda m: ..., text)`. -/
def capAfterSentence (l : List Char) : List Char := l.foldr capStep []

/-- Python `str.strip()`: drop whitespace from both ends. -/
def stripWs (l : List Char) : List Char :=
  ((l.dropWhile isWs).reverse.dropWhile isWs).reverse

/-- `Transcriber._fix_common_issues`: collapse whitespace runs, remove
whitespace before punctuation, capitalize after sentence endings, strip. -/
def fixCommonIssues (l : List Char) : List Char :=
  stripWs (capAfterSentence (rmWsBeforePunct (collapseWs l)))

/-- `Transcriber._post_process`: empty text is returned unchanged; otherwise
uppercase the first character, append `'.'` unless the text already ends in
`.`, `!` or `?`, and apply `_fix_common_issues`. -/
def postProcessL : List Char → List Char
  | [] => []
  | c :: cs =>
    let capped := c.toUpper :: cs
    let dotted :=
      match capped.getLast? with
      | some d => if isSentEnd d then capped else capped ++ ['.']
      | none => capped
    fixCommonIssues dotted

/-- `Transcriber._post_process` on strings. -/
def postProcess (s : String) : String := String.mk (postProcessL s.data)

/-- `result["text"].strip()` in `Transcriber.transcribe`. -/
def stripStr (s : String) : String := String.mk (stripWs s.data)

/-- The text path of `Transcriber.transcribe` around the opaque Whisper model:
normalize the audio, run the model, strip the raw text, post-process. -/
def transcribePipeline (model : List ℚ → String) (a : AudioData) : String :=
  postProcess (stripStr (model (normalizeAudio a.audio)))

example : postProcess "hello world" = "Hello world." := by decide
example : postProcess "" = "" := by decide
example : postProcess "hello   world" = "Hello world." := by decide
example : postProcess "hello , world" = "Hello, world." := by decide
example : postProcess "hi. there" = "Hi. There." := by decide
example : postProcess "hi" = "Hi." := by decide
example : postProcess "it works!" = "It works!" := by decide

theorem char_toNat_ofNat (n : ℕ) (h : n < 55296) : (Char.ofNat n).toNat = n := by
  have hv : n.isValidChar := Or.inl h
  rw [Char.ofNat, dif_pos hv]
  simp [Char.ofNatAux, Char.toNat, UInt32.toNat]

theorem isLower_toNat (c : Char) (h : c.isLower = true) :
    97 ≤ c.toNat ∧ c.toNat ≤ 122 := by
  simp only [Char.isLower, Bool.and_eq_true, decide_eq_true_eq, ge_iff_le,
    UInt32.le_def, BitVec.le_def] at h
  exact h

theorem toUpper_toNat_of_isLower (c : Char) (h : c.isLower = true) :
    c.toUpper.toNat = c.toNat - 32 := by
  obtain ⟨h1, h2⟩ := isLower_toNat c h
  rw [Char.toUpper]
  rw [if_pos ⟨h1, h2⟩]
  exact char_toNat_ofNat _ (by omega)

theorem toUpper_isLower_facts (c : Char) (h : c.isLower = true) :
    isWs c.toUpper = false ∧ isSentEnd c.toUpper = false := by
  have ht := toUpper_toNat_of_isLower c h
  obtain ⟨h1, h2⟩ := isLower_toNat c h
  have hne : ∀ d : Char, c.toUpper.toNat ≠ d.toNat → c.toUpper ≠ d := by
    intro d hd he
    exact hd (congrArg Char.toNat he)
  constructor
  · simp only [isWs, Char.isWhitespace, Bool.or_eq_false_iff, decide_eq_false_iff_not]
    refine ⟨⟨⟨?_, ?_⟩, ?_⟩, ?_⟩ <;>
      [exact hne ' ' (by simp [Char.toNat, UInt32.size] at *; omega);
        exact hne '\t' (by simp [Char.toNat, UInt32.size] at *; omega);
        exact hne '\r' (by simp [Char.toNat, UInt32.size] at *; omega);
        exact hne '\n' (by simp [Char.toNat, UInt32.size] at *; omega)]
  · simp only [isSentEnd, Bool.or_eq_false_iff, decide_eq_false_iff_not]
    refine ⟨⟨?_, ?_⟩, ?_⟩ <;>
      [exact hne '.' (by simp [Char.toNat, UInt32.size] at *; omega);
        exact hne '!' (by simp [Char.toNat, UInt32.size] at *; omega);
        exact hne '?' (by simp [Char.toNat, UInt32.size] at *; omega)]

theorem sentEnd_not_ws_not_lower (e : Char) (h : isSentEnd e = true) :
    isWs e = false ∧ e.isLower = false := by
  simp only [isSentEnd, Bool.or_eq_true, decide_eq_true_eq] at h
  rcases h with (h | h) | h <;> subst h <;> exact ⟨by decide, by decide⟩

theorem dropWhile_append_last (v : List Char) (e : Char) (he : isWs e = false) :
    ∃ w, (v ++ [e]).dropWhile isWs = w ++ [e] := by
  induction v with
  | nil => exact ⟨[], by simp [List.dropWhile, he]⟩
  | cons a v ih =>
    by_cases ha : isWs a
    · obtain ⟨w, hw⟩ := ih
      exact ⟨w, by simpa [List.dropWhile, ha] using hw⟩
    · exact ⟨a :: v, by simp [List.dropWhile, ha]⟩

theorem stripWs_last (v : List Char) (e : Char) (he : isWs e = false) :
    ∃ w, stripWs (v ++ [e]) = w ++ [e] := by
  obtain ⟨w, hw⟩ := dropWhile_append_last v e he
  refine ⟨w, ?_⟩
  unfold stripWs
  rw [hw, List.reverse_append]
  simp only [List.reverse_cons, List.reverse_nil, List.nil_append, List.singleton_append]
  rw [List.dropWhile_cons_of_neg (by simp [he])]
  simp

theorem collapseWs_last (v : List Char) (e : Char) (he : isWs e = false) :
    ∃ w, collapseWs (v ++ [e]) = w ++ [e] := by
  induction v with
  | nil => exact ⟨[], by simp [collapseWs, he]⟩
  | cons a v ih =>
    obtain ⟨w, hw⟩ := ih
    cases v with
    | nil =>
      by_cases ha : isWs a <;>
        simp [collapseWs, ha, he] <;>
        [exact ⟨[' '], rfl⟩; exact ⟨[a], rfl⟩]
    | cons b v' =>
      by_cases ha : isWs a
      · by_cases hb : isWs b
        · exact ⟨w, by simpa [collapseWs, ha, hb] using hw⟩
        · exact ⟨' ' :: w, by simp [collapseWs, ha, hb]; simpa using hw⟩
      · exact ⟨a :: w, by simp [collapseWs, ha]; simpa using hw⟩

theorem rmWsBeforePunct_last (v : List Char) (e : Char) (he : isWs e = false) :
    ∃ w, rmWsBeforePunct (v ++ [e]) = w ++ [e] := by
  unfold rmWsBeforePunct
  rw [List.foldr_append]
  have hbase : List.foldr rmWsStep [] [e] = [e] := by
    simp [rmWsStep, he]
  rw [hbase]
  induction v with
  | nil => exact ⟨[], rfl⟩
  | cons a v ih =>
    obtain ⟨w, hw⟩ := ih
    simp only [List.foldr_cons, hw]
    by_cases ha : isWs a
    · cases w with
      | nil =>
        simp only [List.nil_append]
        by_cases hp : isPunctG e <;>
          [exact ⟨[], by simp [rmWsStep, ha, hp]⟩;
            exact ⟨[a], by simp [rmWsStep, ha, hp]⟩]
      | cons p w' =>
        by_cases hp : isPunctG p <;>
          [exact ⟨p :: w', by simp [rmWsStep, ha, hp]⟩;
            exact ⟨a :: p :: w', by simp [rmWsStep, ha, hp]⟩]
    · exact ⟨a :: w, by simp [rmWsStep, ha]⟩

theorem capAfterSentence_last (v : List Char) (e : Char) (he : isWs e = false)
    (hl : e.isLower = false) :
    ∃ w, capAfterSentence (v ++ [e]) = w ++ [e] := by
  unfold capAfterSentence
  rw [List.foldr_append]
  have hbase : List.foldr capStep [] [e] = [e] := by
    by_cases hs : isSentEnd e <;> simp [capStep, hs]
  rw [hbase]
  induction v with
  | nil => exact ⟨[], rfl⟩
  | cons a v ih =>
    obtain ⟨w, hw⟩ := ih
    simp only [List.foldr_cons, hw]
    by_cases ha : isSentEnd a
    · by_cases hemp : ((w ++ [e]).takeWhile isWs).isEmpty
      · exact ⟨a :: w, by simp [capStep, ha, hemp]⟩
      · obtain ⟨u, hu⟩ := dropWhile_append_last w e he
        cases u with
        | nil =>
          simp only [List.nil_append] at hu
          refine ⟨a :: w, ?_⟩
          simp [capStep, ha, hemp, hu, hl]
        | cons d u' =>
          by_cases hd : d.isLower
          · refine ⟨a :: ' ' :: d.toUpper :: u', ?_⟩
            simp [capStep, ha, hemp, hu, hd]
          · exact ⟨a :: w, by simp [capStep, ha, hemp, hu, hd]⟩
    · exact ⟨a :: w, by simp [capStep, ha]⟩

theorem collapseWs_cons (c : Char) (cs : List Char) (hc : isWs c = false) :
    collapseWs (c :: cs) = c :: collapseWs cs := by
  cases cs with
  | nil => simp [collapseWs, hc]
  | cons d cs' => simp [collapseWs, hc]

theorem rmWsBeforePunct_cons (c : Char) (l : List Char) (hc : isWs c = false) :
    rmWsBeforePunct (c :: l) = c :: rmWsBeforePunct l := by
  simp [rmWsBeforePunct, rmWsStep, hc]

theorem capAfterSentence_cons (c : Char) (l : List Char) (hc : isSentEnd c = false) :
    capAfterSentence (c :: l) = c :: capAfterSentence l := by
  simp [capAfterSentence, capStep, hc]

theorem stripWs_cons_head (c : Char) (t : List Char) (hc : isWs c = false) :
    ∃ w, stripWs (c :: t) = c :: w := by
  unfold stripWs
  rw [List.dropWhile_cons_of_neg (by simp [hc]), List.reverse_cons]
  obtain ⟨w, hw⟩ := dropWhile_append_last t.reverse c hc
  rw [hw, List.reverse_append]
  exact ⟨w.reverse, by simp⟩

theorem fixCommonIssues_last (u : List Char) (e : Char) (hw : isWs e = false)
    (hl : e.isLower = false) :
    ∃ v, fixCommonIssues (u ++ [e]) = v ++ [e] := by
  unfold fixCommonIssues
  obtain ⟨v1, h1⟩ := collapseWs_last u e hw
  rw [h1]
  obtain ⟨v2, h2⟩ := rmWsBeforePunct_last v1 e hw
  rw [h2]
  obtain ⟨v3, h3⟩ := capAfterSentence_last v2 e hw hl
  rw [h3]
  exact stripWs_last v3 e hw

/-- C8: post-processing returns empty text unchanged; `"hello world"` yields
exactly `"Hello world."`; whitespace runs are collapsed, space before
punctuation is removed, and letters after sentence endings are capitalized
(shown on representative inputs); the first character of a text beginning
with a lowercase letter is uppercased; and every non-empty text comes out
ending in `'.'`, `'!'` or `'?'` (the terminal `'.'` is appended whenever the
text did not already end in one of these). -/
theorem postProcess_contract :
    postProcess "" = "" ∧
    postProcess "hello world" = "Hello world." ∧
    postProcess "hello   world" = "Hello world." ∧
    postProcess "hello , world" = "Hello, world." ∧
    postProcess "hi. there" = "Hi. There." ∧
    (∀ c : Char, ∀ cs : List Char, c.isLower = true →
      ∃ w, postProcessL (c :: cs) = c.toUpper :: w) ∧
    (∀ l : List Char, l ≠ [] →
      ∃ e, (postProcessL l).getLast? = some e ∧ isSentEnd e = true) := by
  refine ⟨by decide, by decide, by decide, by decide, by decide, ?_, ?_⟩
  · intro c cs hc
    obtain ⟨hws, hse⟩ := toUpper_isLower_facts c hc
    unfold postProcessL
    rcases h : (c.toUpper :: cs).getLast? with _ | d
    · simp at h
    · by_cases hd : isSentEnd d <;>
        simp only [h, hd, if_true, if_false, Bool.false_eq_true, List.cons_append] <;>
        · unfold fixCommonIssues
          rw [collapseWs_cons _ _ hws, rmWsBeforePunct_cons _ _ hws,
            capAfterSentence_cons _ _ hse]
          exact stripWs_cons_head _ _ hws
  · intro l hl
    obtain ⟨c, cs, rfl⟩ := List.exists_cons_of_ne_nil hl
    unfold postProcessL
    rcases h : (c.toUpper :: cs).getLast? with _ | d
    · simp at h
    · by_cases hd : isSentEnd d
      · obtain ⟨u, hu⟩ := List.getLast?_eq_some_iff.mp h
        obtain ⟨hw1, hl1⟩ := sentEnd_not_ws_not_lower d hd
        refine ⟨d, ?_, hd⟩
        simp only [h, hd, if_true]
        rw [hu]
        obtain ⟨v, hv⟩ := fixCommonIssues_last u d hw1 hl1
        rw [hv, List.getLast?_concat]
      · refine ⟨'.', ?_, by decide⟩
        simp only [h, hd, Bool.false_eq_true, if_false]
        have hdot : (c.toUpper :: cs) ++ ['.'] = (c.toUpper :: cs) ++ ['.'] := rfl
        obtain ⟨v, hv⟩ := fixCommonIssues_last (c.toUpper :: cs) '.'
          (by decide) (by decide)
        rw [hv, List.getLast?_concat]

/-- Witness for C8's quantified clauses: the first letter of `"hi"` is
uppercased, and `"ok"` comes out with sentence-ending punctuation. -/
theorem postProcess_contract_witness :
    (∃ w, postProcessL ('h' :: "i".data) = 'h'.toUpper :: w) ∧
    (∃ e, (postProcessL "ok".data).getLast? = some e ∧ isSentEnd e = true) :=
  ⟨postProcess_contract.2.2.2.2.2.1 'h' "i".data (by decide),
    postProcess_contract.2.2.2.2.2.2 "ok".data (by decide)⟩
